import Mathlib

/-!
Verification of the `m3u82mp3` HLS-to-MP3 converter (`m3u82mp3.py`).

The development shallowly embeds the converter's functions:

* `is_valid` / `read_bytes` — URL detection and the network/local fetch dispatch,
  with the network and the filesystem given as oracles `net loc : String → Except PyErr Bytes`;
* `save_converted_mp3` — the output writer (the returned list holds the writes made to the sink);
* `get_host_uri` — host-URI recovery from the parsed playlist object;
* `deriveIV` — the IV computation `binascii.a2b_hex('%032x' % ind)`;
* `get_ts_from_m3u8` / `convert` — the segment loop and the whole conversion.

The `m3u8` library's parsed playlist is modelled by the structures `KeyTag`, `Segment`
and `M3U8`: a segment's `key` attribute is optional (`None` in Python when no
`EXT-X-KEY` tag applies to the segment), a key tag carries a mandatory `method`
string and an optional `uri`, and `M3U8.keys` is the library's list of key objects,
whose entries may be `None`.  The AES block cipher itself stays abstract: the CBC
decryption body is a parameter `aesDec`, while the length checks that
`Crypto.Cipher.AES` performs (`AES.new` key/IV validation, CBC block alignment)
are modelled explicitly.  Python exceptions are modelled by `Except PyErr`.

Along with the run's result, `get_ts_from_m3u8` returns the number of times the
decryption key was fetched through `read_bytes` (the second component of the pair);
this instrumentation only counts and never alters the control flow.
-/

namespace M3u82mp3

/-- Python exception values distinguished by this development. -/
inductive PyErr where
  | typeError (msg : String)
  | valueError (msg : String)
  | attributeError
  | indexError
  | ioError (msg : String)
deriving DecidableEq

deriving instance DecidableEq for Except

/-- Byte strings are lists of byte values. -/
abbrev Bytes := List Nat

/-! ### `urllib.parse.urlparse` (scheme and netloc only) and `is_valid` -/

/-- Characters allowed in a URL scheme (`urllib.parse.scheme_chars`). -/
def isSchemeChar (c : Char) : Bool :=
  c.isAlphanum || c = '+' || c = '-' || c = '.'

/-- Split a character list at its first colon, if any. -/
def findColonSplit : List Char → Option (List Char × List Char)
  | [] => none
  | ':' :: rest => some ([], rest)
  | c :: rest =>
    match findColonSplit rest with
    | none => none
    | some (pre, post) => some (c :: pre, post)

/-- Scheme extraction as in `urllib.parse.urlsplit`: the part before the first
colon is the scheme when it is non-empty, starts with a letter and consists of
scheme characters; it is lower-cased.  Otherwise there is no scheme. -/
def schemeSplit (cs : List Char) : List Char × List Char :=
  match findColonSplit cs with
  | none => ([], cs)
  | some ([], _) => ([], cs)
  | some (c :: rest, post) =>
    if c.isAlpha && (c :: rest).all isSchemeChar then ((c :: rest).map Char.toLower, post)
    else ([], cs)

/-- Netloc extraction as in `urllib.parse.urlsplit`: present exactly when the
remainder after the scheme starts with `//`, and extends to the next `/`, `?` or `#`. -/
def netlocOf : List Char → List Char
  | '/' :: '/' :: rest => rest.takeWhile (fun c => !(c = '/' || c = '?' || c = '#'))
  | _ => []

/-- `urlparse(url).scheme`. -/
def urlparse_scheme (url : String) : String :=
  String.mk (schemeSplit url.data).1

/-- `urlparse(url).netloc`. -/
def urlparse_netloc (url : String) : String :=
  String.mk (netlocOf (schemeSplit url.data).2)

/-- `is_valid` from the source: the parsed `scheme` and `netloc` are both truthy
(non-empty strings). -/
def is_valid (url : String) : Bool :=
  (urlparse_scheme url != "") && (urlparse_netloc url != "")

/-- `read_bytes` from the source: URLs are fetched from the network oracle `net`,
anything else is read from the local-filesystem oracle `loc`. -/
def read_bytes (net loc : String → Except PyErr Bytes) (path : String) : Except PyErr Bytes :=
  if is_valid path then net path else loc path

/-- `save_converted_mp3` from the source: `None` content raises `TypeError`,
otherwise the content is written to the output sink.  The returned list is the
sequence of writes made to the sink. -/
def save_converted_mp3 (content : Option Bytes) : Except PyErr (List Bytes) :=
  match content with
  | none => .error (.typeError "Empty mp3 content to save.")
  | some c => .ok [c]

/-! ### Parsed playlist model (the `m3u8` library's objects) -/

/-- An `EXT-X-KEY` tag as parsed by the `m3u8` library (`Key` object):
a mandatory `METHOD` and an optional `URI`. -/
structure KeyTag where
  method : String
  uri : Option String
deriving DecidableEq

/-- A media segment: its URI and the key tag in scope for it, if any
(`segment.key` is `None` in Python when the playlist has no key tag for it). -/
structure Segment where
  uri : String
  key : Option KeyTag
deriving DecidableEq

/-- The parsed playlist object: `media_sequence`, the ordered segment list,
and the library's `keys` list (whose entries may be `None`). -/
structure M3U8 where
  media_sequence : Nat
  segments : List Segment
  keys : List (Option KeyTag)
deriving DecidableEq

/-! ### `get_host_uri` -/

/-- Python `str.split("/")` on the character level. -/
def splitSlash : List Char → List (List Char)
  | [] => [[]]
  | c :: rest =>
    match splitSlash rest with
    | [] => [[]]
    | p :: ps => if c = '/' then [] :: p :: ps else (c :: p) :: ps

/-- Python `"/".join(...)` on the character level. -/
def joinSlash : List (List Char) → List Char
  | [] => []
  | [p] => p
  | p :: ps => p ++ '/' :: joinSlash ps

/-- `"/".join(key_uri.split("/")[:-1])` — the directory portion of a key URI. -/
def hostFromKeyUri (keyUri : String) : String :=
  String.mk (joinSlash ((splitSlash keyUri.data).dropLast))

/-- The loop of `get_host_uri`: `for i in range(media_sequence)` over
`m3u8_obj.keys`.  Reading past the end of the list raises `IndexError`; an entry
that is `None`, or whose `uri` is `None`, raises `AttributeError` inside the
`try`, which the source catches and turns into `continue`. -/
def get_host_uri_loop : Nat → List (Option KeyTag) → Except PyErr (Option String)
  | 0, _ => .ok none
  | _ + 1, [] => .error .indexError
  | fuel + 1, k :: rest =>
    match k with
    | none => get_host_uri_loop fuel rest
    | some kt =>
      match kt.uri with
      | none => get_host_uri_loop fuel rest
      | some u => .ok (some (hostFromKeyUri u))

/-- `get_host_uri` from the source. -/
def get_host_uri (obj : M3U8) : Except PyErr (Option String) :=
  get_host_uri_loop obj.media_sequence obj.keys

/-! ### IV derivation: `binascii.a2b_hex('%032x' % ind)` -/

/-- A lowercase hexadecimal digit character (`'%x'` formatting uses lowercase). -/
def hexDigitChar (d : Nat) : Char :=
  if d < 10 then Char.ofNat (48 + d) else Char.ofNat (87 + d)

/-- The value of a hexadecimal digit character, as accepted by `binascii.a2b_hex`. -/
def hexCharVal (c : Char) : Option Nat :=
  if '0' ≤ c ∧ c ≤ '9' then some (c.toNat - 48)
  else if 'a' ≤ c ∧ c ≤ 'f' then some (c.toNat - 87)
  else if 'A' ≤ c ∧ c ≤ 'F' then some (c.toNat - 55)
  else none

/-- Little-endian base-16 digit values of `n`; the first argument is fuel, which
is sufficient whenever it is at least `n`.  (Fuel keeps the recursion structural,
so terms reduce inside the kernel.) -/
def toHexRevAux : Nat → Nat → List Nat
  | _, 0 => []
  | 0, _ + 1 => []
  | fuel + 1, n + 1 => (n + 1) % 16 :: toHexRevAux fuel ((n + 1) / 16)

/-- Big-endian base-16 digit values of `n`, with `[0]` for `0` — the digits of
Python's `'%x' % n`. -/
def hexDigits (n : Nat) : List Nat :=
  if n = 0 then [0] else (toHexRevAux n n).reverse

/-- The characters of `'%x' % n`. -/
def hexChars (n : Nat) : List Char :=
  (hexDigits n).map hexDigitChar

/-- The characters of `'%032x' % n`: the hexadecimal expansion, left-padded with
`'0'` to a minimum width of 32 (wider values are not truncated). -/
def percent032x (n : Nat) : List Char :=
  List.replicate (32 - (hexChars n).length) '0' ++ hexChars n

/-- `binascii.a2b_hex`: pairs of hexadecimal digit characters become bytes; an
odd-length input raises `binascii.Error`, a subclass of `ValueError`. -/
def binascii_a2b_hex : List Char → Except PyErr Bytes
  | [] => .ok []
  | [_] => .error (.valueError "Odd-length string")
  | a :: b :: rest =>
    match hexCharVal a, hexCharVal b with
    | some d1, some d2 =>
      match binascii_a2b_hex rest with
      | .ok bs => .ok ((16 * d1 + d2) :: bs)
      | .error e => .error e
    | _, _ => .error (.valueError "Non-hexadecimal digit found")

/-- Lines 152–153 of the source: `iv = binascii.a2b_hex('%032x' % ind)`. -/
def deriveIV (ind : Nat) : Except PyErr Bytes :=
  binascii_a2b_hex (percent032x ind)

/-! ### The AES layer (`Crypto.Cipher.AES`) -/

/-- The validation performed by `AES.new(key, AES.MODE_CBC, iv=iv)`: the key must
be 16, 24 or 32 bytes and the IV exactly 16 bytes, else `ValueError`. -/
def AES_new (key iv : Bytes) : Except PyErr Unit :=
  if key.length = 16 ∨ key.length = 24 ∨ key.length = 32 then
    if iv.length = 16 then .ok ()
    else .error (.valueError "Incorrect IV length (it must be 16 bytes long)")
  else .error (.valueError "Incorrect AES key length")

/-- `cipher.decrypt(data)` in CBC mode: the data must be block-aligned, and the
decryption body is the abstract cipher parameter `aesDec` applied to the key,
the IV and the ciphertext. -/
def cbc_decrypt (aesDec : Bytes → Bytes → Bytes → Bytes) (key iv data : Bytes) :
    Except PyErr Bytes :=
  if data.length % 16 = 0 then .ok (aesDec key iv data)
  else .error (.valueError "Data must be padded to 16 byte boundary in CBC mode")

/-! ### The segment loop of `get_ts_from_m3u8` -/

/-- Python truthiness of the `key` variable (`None` and `b""` are falsy). -/
def pyFalsy : Option Bytes → Bool
  | none => true
  | some b => b.isEmpty

/-- The loop state of `get_ts_from_m3u8`: the accumulated `ts_content` and the
cached `key`. -/
structure LoopState where
  ts : Bytes
  key : Option Bytes
deriving DecidableEq

/-- Whether a string starts with `'/'`. -/
def startsWithSlash (s : String) : Bool :=
  match s.data with
  | [] => false
  | c :: _ => c = '/'

/-- Whether a string ends with `'/'`. -/
def endsWithSlash (s : String) : Bool :=
  match s.data.getLast? with
  | some c => c = '/'
  | none => false

/-- `os.path.join(a, b)` (POSIX, two arguments). -/
def ospath_join (a b : String) : String :=
  if startsWithSlash b then b
  else if a = "" then b
  else if endsWithSlash a then a ++ b
  else a ++ "/" ++ b

/-- The `if not key:` block of the loop: fetch the key through `read_bytes` when
the cached key is falsy.  A `None` key URI makes `read_bytes` blow up inside
`urlparse` before anything is retrieved.  The second component counts actual
`read_bytes(key_uri)` calls. -/
def fetchKeyIfNeeded (net loc : String → Except PyErr Bytes) (kt : KeyTag)
    (cached : Option Bytes) : Except PyErr Bytes × Nat :=
  if pyFalsy cached then
    match kt.uri with
    | none => (.error (.typeError "expected string or bytes-like object"), 0)
    | some u => (read_bytes net loc u, 1)
  else (.ok (cached.getD []), 0)

/-- The body of the loop for a segment whose key method is `"AES-128"`:
resolve the key, derive the IV from `i + media_sequence`, build the cipher,
fetch the segment, decrypt and append. -/
def aesSegmentStep (net loc : String → Except PyErr Bytes)
    (aesDec : Bytes → Bytes → Bytes → Bytes) (hostUri : String) (mediaSeq i : Nat)
    (kt : KeyTag) (seg : Segment) (st : LoopState) : Except PyErr LoopState × Nat :=
  match fetchKeyIfNeeded net loc kt st.key with
  | (.error e, c) => (.error e, c)
  | (.ok keyBytes, c) =>
    match deriveIV (i + mediaSeq) with
    | .error e => (.error e, c)
    | .ok iv =>
      match AES_new keyBytes iv with
      | .error e => (.error e, c)
      | .ok _ =>
        match read_bytes net loc (ospath_join hostUri seg.uri) with
        | .error e => (.error e, c)
        | .ok dta =>
          match cbc_decrypt aesDec keyBytes iv dta with
          | .error e => (.error e, c)
          | .ok plain => (.ok { ts := st.ts ++ plain, key := some keyBytes }, c)

/-- One iteration of the segment loop.  `segment.key.method` is read
unconditionally, so a segment without a key tag raises `AttributeError`; a
non-`"AES-128"` method leaves `decrypt_func` as the identity. -/
def processSegment (net loc : String → Except PyErr Bytes)
    (aesDec : Bytes → Bytes → Bytes → Bytes) (hostUri : String) (mediaSeq i : Nat)
    (seg : Segment) (st : LoopState) : Except PyErr LoopState × Nat :=
  match seg.key with
  | none => (.error .attributeError, 0)
  | some kt =>
    if kt.method = "AES-128" then
      aesSegmentStep net loc aesDec hostUri mediaSeq i kt seg st
    else
      match read_bytes net loc (ospath_join hostUri seg.uri) with
      | .error e => (.error e, 0)
      | .ok dta => (.ok { ts := st.ts ++ dta, key := st.key }, 0)

/-- The `for i, segment in enumerate(m3u8_obj.segments)` loop, threading the
loop state and accumulating the key-fetch count. -/
def get_ts_loop (net loc : String → Except PyErr Bytes)
    (aesDec : Bytes → Bytes → Bytes → Bytes) (hostUri : String) (mediaSeq : Nat) :
    List Segment → Nat → LoopState → Except PyErr LoopState × Nat
  | [], _, st => (.ok st, 0)
  | seg :: rest, i, st =>
    match processSegment net loc aesDec hostUri mediaSeq i seg st with
    | (.error e, c) => (.error e, c)
    | (.ok st', c) =>
      match get_ts_loop net loc aesDec hostUri mediaSeq rest (i + 1) st' with
      | (r, c') => (r, c + c')

/-- `host_uri = host_uri or get_host_uri(m3u8_obj)`: the right side is evaluated
only when the passed argument is falsy (`None` or the empty string). -/
def resolveHost (obj : M3U8) (arg : Option String) : Except PyErr (Option String) :=
  match arg with
  | some s => if s = "" then get_host_uri obj else .ok (some s)
  | none => get_host_uri obj

/-- The part of `get_ts_from_m3u8` after the host check: run the segment loop
from `ts_content = b""`, `key = None` and return the accumulated bytes. -/
def runSegments (net loc : String → Except PyErr Bytes)
    (aesDec : Bytes → Bytes → Bytes → Bytes) (obj : M3U8) (hostUri : String) :
    Except PyErr Bytes × Nat :=
  match get_ts_loop net loc aesDec hostUri obj.media_sequence obj.segments 0
      { ts := [], key := none } with
  | (.ok st, c) => (.ok st.ts, c)
  | (.error e, c) => (.error e, c)

/-- `get_ts_from_m3u8` from the source, starting from the parsed playlist object
(`m3u8.loads` is the library's parser and stays outside the embedding).  The
second component counts key fetches. -/
def get_ts_from_m3u8 (net loc : String → Except PyErr Bytes)
    (aesDec : Bytes → Bytes → Bytes → Bytes) (obj : M3U8) (host_arg : Option String) :
    Except PyErr Bytes × Nat :=
  match resolveHost obj host_arg with
  | .error e => (.error e, 0)
  | .ok none => (.error (.typeError "Host URL is not set."), 0)
  | .ok (some h) => runSegments net loc aesDec obj h

/-- `convert` from the source: run the pipeline with no host argument and save
the result.  The returned list is the sequence of writes made to the output sink;
an exception escapes before anything is written. -/
def convert (net loc : String → Except PyErr Bytes)
    (aesDec : Bytes → Bytes → Bytes → Bytes) (obj : M3U8) : Except PyErr (List Bytes) :=
  match (get_ts_from_m3u8 net loc aesDec obj none).1 with
  | .error e => .error e
  | .ok ts => save_converted_mp3 (some ts)

/-! ### Specification-side definitions (worded from the spec, for comparison) -/

/-- Modelled from the spec: the 16-byte big-endian, zero-padded expansion of the
absolute sequence number — byte `j` (from the left) is `n / 256 ^ (15 - j) % 256`. -/
def specDerivedIV (n : Nat) : Bytes :=
  (List.range 16).map fun j => n / 256 ^ (15 - j) % 256

/-- Modelled from the spec: scan the segments in playlist order, ignore segments
without a key URI, and return the directory portion of the first key URI present. -/
def specBaseLocation : List Segment → Option String
  | [] => none
  | seg :: rest =>
    match seg.key with
    | some kt =>
      match kt.uri with
      | some u => some (hostFromKeyUri u)
      | none => specBaseLocation rest
    | none => specBaseLocation rest

/-! ### Proof-side helper definitions -/

/-- Little-endian fixed-width base-`b` digits: `leDigits b k n` lists
`n % b, n / b % b, …` (`k` digits). -/
def leDigits (b : Nat) : Nat → Nat → List Nat
  | 0, _ => []
  | k + 1, n => n % b :: leDigits b k (n / b)

/-- Combine consecutive pairs of hexadecimal digit values into byte values. -/
def pairup : List Nat → List Nat
  | d1 :: d2 :: rest => (16 * d1 + d2) :: pairup rest
  | _ => []

/-- Left-pad a digit list with zeros to a minimum width of 32. -/
def padTo32 (ds : List Nat) : List Nat :=
  List.replicate (32 - ds.length) 0 ++ ds

/-- The first entry of a key list carrying a URI, mapped to its directory portion. -/
def scanFirst : List (Option KeyTag) → Option String
  | [] => none
  | none :: rest => scanFirst rest
  | some kt :: rest =>
    match kt.uri with
    | none => scanFirst rest
    | some u => some (hostFromKeyUri u)

/-- Concatenation of a list of byte strings, in order. -/
def concatAll : List Bytes → Bytes
  | [] => []
  | b :: rest => b ++ concatAll rest

/-! ### Concrete fixtures used by individual claims -/

/-- Fixture for C2: a playlist whose only segment carries a key URI while
`media_sequence` is `0`. -/
def c2Key : KeyTag := { method := "AES-128", uri := some "http://host/path/k.key" }

/-- Fixture for C2. -/
def c2Obj : M3U8 :=
  { media_sequence := 0
  , segments := [{ uri := "s.ts", key := some c2Key }]
  , keys := [some c2Key] }

/-- Fixture for C3: ten segments sharing one key URI. -/
def c3Key : KeyTag := { method := "AES-128", uri := some "http://h/p/k.key" }

/-- Fixture for C3. -/
def c3Obj : M3U8 :=
  { media_sequence := 1
  , segments := List.replicate 10 { uri := "s.ts", key := some c3Key }
  , keys := [some c3Key] }

/-- Fixture for C3: the network serves the key and block-aligned segment data. -/
def c3Net : String → Except PyErr Bytes :=
  fun s => if s = "http://h/p/k.key" then .ok (List.replicate 16 1) else .ok (List.replicate 16 0)

/-- Fixture for C3: the local filesystem is never consulted. -/
def c3Loc : String → Except PyErr Bytes :=
  fun _ => .error (.ioError "missing")

/-- Fixture for C3: the abstract cipher body (its value is irrelevant to the count). -/
def c3Aes : Bytes → Bytes → Bytes → Bytes :=
  fun _ _ dta => dta

/-- Fixture for C4: a playlist whose only segment has no key tag at all. -/
def c4Obj : M3U8 :=
  { media_sequence := 0, segments := [{ uri := "s.ts", key := none }], keys := [] }

/-- Fixture for the C4 witness: three unencrypted segments. -/
def c4WObj : M3U8 :=
  { media_sequence := 0
  , segments := [ { uri := "a.ts", key := some { method := "NONE", uri := none } }
                , { uri := "b.ts", key := some { method := "NONE", uri := none } }
                , { uri := "c.ts", key := some { method := "NONE", uri := none } } ]
  , keys := [none] }

/-- Fixture for the C4 witness: segment bytes keyed by segment URI. -/
def c4WD : String → Bytes :=
  fun u => if u = "a.ts" then [65, 65, 65] else if u = "b.ts" then [66, 66, 66] else [67, 67, 67]

/-- Fixture for the C4 witness: the local filesystem serves the joined paths. -/
def c4WLoc : String → Except PyErr Bytes :=
  fun p => if p = "h/a.ts" then .ok [65, 65, 65]
    else if p = "h/b.ts" then .ok [66, 66, 66]
    else if p = "h/c.ts" then .ok [67, 67, 67]
    else .error (.ioError "missing")

/-- Fixture for C7: a playlist whose only segment URI is an absolute URL. -/
def c7Obj : M3U8 :=
  { media_sequence := 0
  , segments := [{ uri := "http://a/s.ts", key := some { method := "NONE", uri := none } }]
  , keys := [] }

/-- Fixture for C8: one AES-128 segment whose key URI cannot be retrieved. -/
def c8Key : KeyTag := { method := "AES-128", uri := some "http://h/p/bad.key" }

/-- Fixture for C8. -/
def c8Obj : M3U8 :=
  { media_sequence := 2
  , segments := [{ uri := "s0.ts", key := some c8Key }]
  , keys := [some c8Key] }

/-- Fixture for C8: every retrieval fails. -/
def c8Net : String → Except PyErr Bytes :=
  fun _ => .error (.ioError "HTTP Error 404")

/-- Fixture for C8. -/
def c8Loc : String → Except PyErr Bytes :=
  fun _ => .error (.ioError "No such file or directory")

end M3u82mp3

namespace M3u82mp3

/-! ## Helper lemmas about the hexadecimal machinery -/

theorem toHexRevAux_eq_digits : ∀ fuel n, n ≤ fuel → toHexRevAux fuel n = Nat.digits 16 n := by
  intro fuel
  induction fuel with
  | zero =>
    intro n hn
    have h0 : n = 0 := Nat.le_zero.mp hn
    subst h0
    show ([] : List Nat) = Nat.digits 16 0
    simp
  | succ fuel ih =>
    intro n hn
    match n with
    | 0 =>
      show ([] : List Nat) = Nat.digits 16 0
      simp
    | m + 1 =>
      have hdiv : (m + 1) / 16 ≤ fuel := by
        have h1 : (m + 1) / 16 < m + 1 := Nat.div_lt_self (Nat.succ_pos m) (by norm_num)
        omega
      have hunf : toHexRevAux (fuel + 1) (m + 1) =
          (m + 1) % 16 :: toHexRevAux fuel ((m + 1) / 16) := rfl
      rw [hunf, ih _ hdiv]
      exact (Nat.digits_def' (by norm_num : (1:ℕ) < 16) (Nat.succ_pos m)).symm

theorem hexDigits_of_ne_zero {n : Nat} (hn : n ≠ 0) :
    hexDigits n = (Nat.digits 16 n).reverse := by
  rw [hexDigits, if_neg hn, toHexRevAux_eq_digits n n le_rfl]

theorem hexCharVal_hexDigitChar : ∀ d, d < 16 → hexCharVal (hexDigitChar d) = some d := by decide

theorem hexDigitChar_zero : hexDigitChar 0 = '0' := by decide

theorem a2b_hex_map : ∀ ds : List Nat, (∀ d ∈ ds, d < 16) →
    binascii_a2b_hex (ds.map hexDigitChar) =
      if 2 ∣ ds.length then .ok (pairup ds) else .error (.valueError "Odd-length string")
  | [], _ => by decide
  | [d], _ => by
    have hlen : ([d] : List Nat).length = 1 := rfl
    rw [if_neg (by rw [hlen]; decide)]
    rfl
  | d1 :: d2 :: rest, h => by
    have h1 : hexCharVal (hexDigitChar d1) = some d1 :=
      hexCharVal_hexDigitChar d1 (h d1 (by simp))
    have h2 : hexCharVal (hexDigitChar d2) = some d2 :=
      hexCharVal_hexDigitChar d2 (h d2 (by simp))
    have ih := a2b_hex_map rest (fun d hd => h d (by simp [hd]))
    have hunf : binascii_a2b_hex ((d1 :: d2 :: rest).map hexDigitChar) =
        match hexCharVal (hexDigitChar d1), hexCharVal (hexDigitChar d2) with
        | some e1, some e2 =>
          match binascii_a2b_hex (rest.map hexDigitChar) with
          | .ok bs => .ok ((16 * e1 + e2) :: bs)
          | .error e => .error e
        | _, _ => .error (.valueError "Non-hexadecimal digit found") := rfl
    rw [hunf, h1, h2]
    by_cases hdvd : 2 ∣ rest.length
    · rw [if_pos hdvd] at ih
      rw [ih, if_pos (by simp [List.length_cons]; omega)]
      rfl
    · rw [if_neg hdvd] at ih
      rw [ih, if_neg (by simp [List.length_cons]; omega)]

theorem leDigits_length (b : Nat) : ∀ k n, (leDigits b k n).length = k
  | 0, _ => rfl
  | k + 1, n => by simp [leDigits, leDigits_length b k]

theorem leDigits_lt (b : Nat) (hb : 0 < b) : ∀ k n d, d ∈ leDigits b k n → d < b
  | 0, _, _, hd => by simp [leDigits] at hd
  | k + 1, n, d, hd => by
    have hmem : d = n % b ∨ d ∈ leDigits b k (n / b) := by
      simpa [leDigits] using hd
    rcases hmem with h | h
    · subst h; exact Nat.mod_lt _ hb
    · exact leDigits_lt b hb k (n / b) d h

theorem leDigits_zero (b : Nat) : ∀ k, leDigits b k 0 = List.replicate k 0
  | 0 => rfl
  | k + 1 => by
    simp [leDigits, Nat.zero_mod, Nat.zero_div, leDigits_zero b k, List.replicate_succ]

theorem leDigits_pad : ∀ k n, n < 16 ^ k →
    leDigits 16 k n = Nat.digits 16 n ++ List.replicate (k - (Nat.digits 16 n).length) 0
  | 0, n, hn => by
    have h0 : n = 0 := by
      have : n < 1 := by simpa using hn
      omega
    subst h0
    simp [leDigits]
  | k + 1, n, hn => by
    rcases Nat.eq_zero_or_pos n with h0 | hpos
    · subst h0
      simp [leDigits_zero, Nat.digits_zero]
    · have hdiv : n / 16 < 16 ^ k := by
        rw [Nat.div_lt_iff_lt_mul (by norm_num : (0:ℕ) < 16)]
        calc n < 16 ^ (k + 1) := hn
        _ = 16 ^ k * 16 := by ring
      have ih := leDigits_pad k (n / 16) hdiv
      have hd := Nat.digits_def' (by norm_num : (1:ℕ) < 16) hpos
      have hcount : k + 1 - (n % 16 :: Nat.digits 16 (n / 16)).length
          = k - (Nat.digits 16 (n / 16)).length := by
        rw [List.length_cons]
        omega
      have hunf : leDigits 16 (k + 1) n = n % 16 :: leDigits 16 k (n / 16) := rfl
      rw [hunf, ih, hd, List.cons_append, hcount]

theorem replicate_append_single (k : Nat) (a : Nat) :
    List.replicate k a ++ [a] = List.replicate (k + 1) a := by
  induction k with
  | zero => rfl
  | succ k ih => simp only [List.replicate_succ, List.cons_append, ih]

theorem digits16_len_le {n k : Nat} (hn : n < 16 ^ k) : (Nat.digits 16 n).length ≤ k := by
  rcases Nat.eq_zero_or_pos n with h0 | hpos
  · subst h0; simp
  · have hne : n ≠ 0 := Nat.pos_iff_ne_zero.mp hpos
    rw [Nat.digits_len 16 n (by norm_num) hne]
    by_contra hlt
    push_neg at hlt
    have hk : k ≤ Nat.log 16 n := by omega
    have h1 : (16:ℕ) ^ k ≤ 16 ^ Nat.log 16 n := Nat.pow_le_pow_right (by norm_num) hk
    have h2 : (16:ℕ) ^ Nat.log 16 n ≤ n := Nat.pow_log_le_self 16 hne
    omega

theorem digits16_len_ge {n : Nat} (hn : 16 ^ 32 ≤ n) : 33 ≤ (Nat.digits 16 n).length := by
  have hne : n ≠ 0 := by
    have : (0:ℕ) < 16 ^ 32 := by positivity
    omega
  rw [Nat.digits_len 16 n (by norm_num) hne]
  have h32 : 32 ≤ Nat.log 16 n := (Nat.pow_le_iff_le_log (by norm_num) hne).mp hn
  omega

theorem padTo32_eq_leDigits {n : Nat} (hn : n < 16 ^ 32) :
    padTo32 (hexDigits n) = (leDigits 16 32 n).reverse := by
  rcases Nat.eq_zero_or_pos n with h0 | hpos
  · subst h0
    have h1 : hexDigits 0 = [0] := rfl
    rw [h1, leDigits_zero, List.reverse_replicate]
    show List.replicate (32 - 1) 0 ++ [0] = List.replicate 32 0
    rw [replicate_append_single]
  · have hne : n ≠ 0 := Nat.pos_iff_ne_zero.mp hpos
    rw [hexDigits_of_ne_zero hne, leDigits_pad 32 n hn, List.reverse_append,
      List.reverse_replicate, padTo32, List.length_reverse]

theorem percent032x_eq (n : Nat) :
    percent032x n = (padTo32 (hexDigits n)).map hexDigitChar := by
  rw [percent032x, padTo32, List.map_append, List.map_replicate, hexDigitChar_zero, hexChars,
    List.length_map]

theorem pairup_append_two : ∀ (xs : List Nat) (a b : Nat), 2 ∣ xs.length →
    pairup (xs ++ [a, b]) = pairup xs ++ [16 * a + b]
  | [], _, _, _ => rfl
  | [x], _, _, h => by
    have h1 : (2:Nat) ∣ 1 := h
    exact absurd h1 (by decide)
  | x :: y :: t, a, b, h => by
    have ht : 2 ∣ t.length := by
      simp [List.length_cons] at h
      omega
    show (16 * x + y) :: pairup (t ++ [a, b]) = ((16 * x + y) :: pairup t) ++ [16 * a + b]
    rw [pairup_append_two t a b ht, List.cons_append]

theorem pairup_length : ∀ ds : List Nat, 2 ∣ ds.length → (pairup ds).length = ds.length / 2
  | [], _ => rfl
  | [_], h => by
    have h1 : (2:Nat) ∣ 1 := h
    exact absurd h1 (by decide)
  | d1 :: d2 :: rest, h => by
    have hr : 2 ∣ rest.length := by
      simp [List.length_cons] at h
      omega
    show (pairup rest).length + 1 = (rest.length + 1 + 1) / 2
    rw [pairup_length rest hr]
    omega

theorem mod256_split (n : Nat) : 16 * (n / 16 % 16) + n % 16 = n % 256 := by
  have h1 : n % (16 * 16) / 16 = n / 16 % 16 := Nat.mod_mul_right_div_self n 16 16
  norm_num at h1
  have h2 : n % 256 % 16 = n % 16 := Nat.mod_mod_of_dvd n (by norm_num : (16:ℕ) ∣ 256)
  have h3 : 16 * (n % 256 / 16) + n % 256 % 16 = n % 256 := Nat.div_add_mod (n % 256) 16
  omega

theorem pairup_leDigits : ∀ (k n : Nat),
    pairup ((leDigits 16 (2 * k) n).reverse) = (leDigits 256 k n).reverse
  | 0, _ => rfl
  | k + 1, n => by
    have e1 : 2 * (k + 1) = 2 * k + 1 + 1 := by ring
    rw [e1]
    have hunf : leDigits 16 (2 * k + 1 + 1) n =
        n % 16 :: ((n / 16) % 16 :: leDigits 16 (2 * k) (n / 16 / 16)) := rfl
    rw [hunf, List.reverse_cons, List.reverse_cons, List.append_assoc]
    have hsing : ([(n / 16) % 16] ++ [n % 16] : List Nat) = [(n / 16) % 16, n % 16] := rfl
    rw [hsing, pairup_append_two _ _ _
      (by rw [List.length_reverse, leDigits_length]; exact ⟨k, rfl⟩)]
    rw [Nat.div_div_eq_div_mul, (by norm_num : (16 * 16 : Nat) = 256)]
    rw [pairup_leDigits k (n / 256), mod256_split]
    have hunf2 : leDigits 256 (k + 1) n = n % 256 :: leDigits 256 k (n / 256) := rfl
    rw [hunf2, List.reverse_cons]

theorem leDigits_reverse_eq (b : Nat) : ∀ (k n : Nat),
    (leDigits b k n).reverse = (List.range k).map fun j => n / b ^ (k - 1 - j) % b
  | 0, _ => rfl
  | k + 1, n => by
    have hunf : leDigits b (k + 1) n = n % b :: leDigits b k (n / b) := rfl
    rw [hunf, List.reverse_cons, leDigits_reverse_eq b k (n / b), List.range_succ,
      List.map_append]
    congr 1
    · apply List.map_congr_left
      intro j hj
      have hjk : j < k := List.mem_range.mp hj
      have e : k + 1 - 1 - j = (k - 1 - j) + 1 := by omega
      rw [e, pow_succ', ← Nat.div_div_eq_div_mul]
    · have e0 : k + 1 - 1 - k = 0 := by omega
      simp [e0]

theorem specDerivedIV_eq (n : Nat) : specDerivedIV n = (leDigits 256 16 n).reverse := by
  rw [specDerivedIV, leDigits_reverse_eq]

theorem leDigits_inj (b : Nat) (hb : 0 < b) : ∀ (k m n : Nat), m < b ^ k → n < b ^ k →
    leDigits b k m = leDigits b k n → m = n
  | 0, m, n, hm, hn, _ => by
    simp [pow_zero] at hm hn
    omega
  | k + 1, m, n, hm, hn, h => by
    have hh : m % b :: leDigits b k (m / b) = n % b :: leDigits b k (n / b) := h
    injection hh with h1 h2
    have hm' : m / b < b ^ k := by
      rw [Nat.div_lt_iff_lt_mul hb]
      rw [pow_succ] at hm
      exact hm
    have hn' : n / b < b ^ k := by
      rw [Nat.div_lt_iff_lt_mul hb]
      rw [pow_succ] at hn
      exact hn
    have hq := leDigits_inj b hb k (m / b) (n / b) hm' hn' h2
    calc m = b * (m / b) + m % b := (Nat.div_add_mod m b).symm
    _ = b * (n / b) + n % b := by rw [hq, h1]
    _ = n := Nat.div_add_mod n b

theorem digits16_pow : ∀ k : Nat, Nat.digits 16 (16 ^ k) = List.replicate k 0 ++ [1]
  | 0 => by
    rw [pow_zero, Nat.digits_def' (by norm_num : (1:ℕ) < 16) (by norm_num : (0:ℕ) < 1)]
    norm_num
  | k + 1 => by
    rw [Nat.digits_def' (by norm_num : (1:ℕ) < 16) (by positivity)]
    have h1 : 16 ^ (k + 1) % 16 = 0 := by
      rw [pow_succ']
      exact Nat.mul_mod_right 16 (16 ^ k)
    have h2 : 16 ^ (k + 1) / 16 = 16 ^ k := by
      rw [pow_succ']
      exact Nat.mul_div_cancel_left (16 ^ k) (by norm_num)
    rw [h1, h2, digits16_pow k, List.replicate_succ, List.cons_append]

end M3u82mp3

namespace M3u82mp3

/-! ## Claim C1 -/

/-- Claim C1: for every playlist and segment index `i`, the IV used to decrypt the
segment is derived from the absolute sequence number `startSequenceNumber + i`
(the loop computes `ind = i + media_sequence` and calls `deriveIV ind`); the
derivation is a pure, deterministic function of that number which, for every
in-range value (at most 32 hexadecimal digits), yields exactly the 16-byte
big-endian zero-padded expansion `specDerivedIV`; `deriveIV 0` is 16 zero bytes,
and two distinct in-range numbers derive distinct IVs. -/
theorem c1_iv_derivation :
    deriveIV 0 = .ok (List.replicate 16 0) ∧
    (∀ n, n < 16 ^ 32 → deriveIV n = .ok (specDerivedIV n)) ∧
    (∀ m n, m < 16 ^ 32 → n < 16 ^ 32 → m ≠ n → deriveIV m ≠ deriveIV n) := by
  have hmain : ∀ n, n < 16 ^ 32 → deriveIV n = .ok (specDerivedIV n) := by
    intro n hn
    rw [deriveIV, percent032x_eq, padTo32_eq_leDigits hn]
    rw [a2b_hex_map _ (fun d hd => leDigits_lt 16 (by norm_num) 32 n d (List.mem_reverse.mp hd))]
    rw [if_pos (by rw [List.length_reverse, leDigits_length]; decide)]
    rw [show (32 : Nat) = 2 * 16 from by norm_num, pairup_leDigits, specDerivedIV_eq]
  refine ⟨?_, hmain, ?_⟩
  · have h0 := hmain 0 (by norm_num)
    have hv : specDerivedIV 0 = List.replicate 16 0 := by decide
    rw [h0, hv]
  · intro m n hm hn hne heq
    have h1 := hmain m hm
    have h2 := hmain n hn
    rw [h1, h2] at heq
    injection heq with h3
    rw [specDerivedIV_eq, specDerivedIV_eq] at h3
    have h4 := List.reverse_injective h3
    have hpow : (16 : Nat) ^ 32 = 256 ^ 16 := by norm_num
    have hm' : m < 256 ^ 16 := by omega
    have hn' : n < 256 ^ 16 := by omega
    exact hne (leDigits_inj 256 (by norm_num) 16 m n hm' hn' h4)

/-- Witness for C1: the theorem applied at the concrete in-range sequence
numbers 3 and 7. -/
theorem c1_witness :
    deriveIV 3 = .ok (specDerivedIV 3) ∧ deriveIV 3 ≠ deriveIV 7 :=
  ⟨c1_iv_derivation.2.1 3 (by norm_num),
   c1_iv_derivation.2.2 3 7 (by norm_num) (by norm_num) (by norm_num)⟩

/-! ## Claim C5 -/

/-- Counterexample to C5 as stated: at the absolute sequence number `16 ^ 33`
(whose hexadecimal representation has 34 digits, exceeding 32) the IV derivation
does not fail with `ValueError` at all — there is no explicit bounds check — and
instead succeeds with a 17-byte value. -/
theorem c5_counterexample :
    deriveIV (16 ^ 33) = .ok (16 :: List.replicate 16 0) ∧
    (16 :: List.replicate 16 0 : Bytes).length = 17 := by
  constructor
  · have hne : (16:Nat) ^ 33 ≠ 0 := by positivity
    have hd : hexDigits (16 ^ 33) = 1 :: List.replicate 33 0 := by
      rw [hexDigits_of_ne_zero hne, digits16_pow, List.reverse_append, List.reverse_replicate]
      rfl
    rw [deriveIV, percent032x_eq, hd]
    decide
  · decide

/-- Claim C5 (amended): for a sequence number whose hexadecimal representation
exceeds 32 digits the value is never silently truncated to 16 bytes; the
derivation either fails with a `ValueError` (the hex decoder rejects an
odd-length string — there is no explicit bounds check before it), or succeeds
with an IV of more than 16 bytes which the subsequent AES cipher construction
rejects with `ValueError`. -/
theorem c5_amended : ∀ n, 16 ^ 32 ≤ n →
    (∃ msg, deriveIV n = .error (.valueError msg)) ∨
    (∃ bs, deriveIV n = .ok bs ∧ 17 ≤ bs.length ∧
      ∀ key : Bytes, key.length = 16 → ∃ msg, AES_new key bs = .error (.valueError msg)) := by
  intro n hn
  have hne : n ≠ 0 := by
    have h0 : (0:ℕ) < 16 ^ 32 := by positivity
    omega
  have hlen : 33 ≤ (Nat.digits 16 n).length := digits16_len_ge hn
  have hds : padTo32 (hexDigits n) = (Nat.digits 16 n).reverse := by
    rw [hexDigits_of_ne_zero hne, padTo32, List.length_reverse,
      show 32 - (Nat.digits 16 n).length = 0 from by omega]
    simp
  have hvalid : ∀ d ∈ (Nat.digits 16 n).reverse, d < 16 :=
    fun d hd => Nat.digits_lt_base (by norm_num) (List.mem_reverse.mp hd)
  have hcalc := a2b_hex_map _ hvalid
  rw [deriveIV, percent032x_eq, hds]
  by_cases hdvd : 2 ∣ ((Nat.digits 16 n).reverse).length
  · right
    have hplen : (pairup ((Nat.digits 16 n).reverse)).length = (Nat.digits 16 n).length / 2 := by
      rw [pairup_length _ hdvd, List.length_reverse]
    have hge : 17 ≤ (pairup ((Nat.digits 16 n).reverse)).length := by
      rw [hplen]
      rw [List.length_reverse] at hdvd
      omega
    rw [hcalc, if_pos hdvd]
    refine ⟨_, rfl, hge, ?_⟩
    intro key hkey
    rw [AES_new, if_pos (Or.inl hkey), if_neg (by omega)]
    exact ⟨_, rfl⟩
  · left
    rw [hcalc, if_neg hdvd]
    exact ⟨_, rfl⟩

/-- Witness for the amended C5: the theorem applied at the concrete out-of-range
sequence number `16 ^ 32` (33 hexadecimal digits). -/
theorem c5_witness :
    (∃ msg, deriveIV (16 ^ 32) = .error (.valueError msg)) ∨
    (∃ bs, deriveIV (16 ^ 32) = .ok bs ∧ 17 ≤ bs.length ∧
      ∀ key : Bytes, key.length = 16 → ∃ msg, AES_new key bs = .error (.valueError msg)) :=
  c5_amended (16 ^ 32) le_rfl

end M3u82mp3

namespace M3u82mp3

/-! ## Claim C2 -/

theorem ghu_loop_found : ∀ (ms : Nat) (keys : List (Option KeyTag)) (d : String),
    scanFirst (keys.take ms) = some d → get_host_uri_loop ms keys = .ok (some d) := by
  intro ms
  induction ms with
  | zero =>
    intro keys d hd
    simp [scanFirst] at hd
  | succ ms ih =>
    intro keys d hd
    match keys with
    | [] => simp [scanFirst] at hd
    | none :: rest =>
      rw [List.take_succ_cons] at hd
      simp only [scanFirst] at hd
      exact ih rest d hd
    | some kt :: rest =>
      rw [List.take_succ_cons] at hd
      match hu : kt.uri with
      | none =>
        simp only [scanFirst, hu] at hd
        simp only [get_host_uri_loop, hu]
        exact ih rest d hd
      | some u =>
        simp only [scanFirst, hu] at hd
        simp only [get_host_uri_loop, hu]
        rw [hd]

theorem ghu_loop_none : ∀ (ms : Nat) (keys : List (Option KeyTag)),
    scanFirst (keys.take ms) = none → ms ≤ keys.length → get_host_uri_loop ms keys = .ok none := by
  intro ms
  induction ms with
  | zero => intro keys _ _; rfl
  | succ ms ih =>
    intro keys hs hle
    match keys with
    | [] => simp at hle
    | none :: rest =>
      rw [List.take_succ_cons] at hs
      simp only [scanFirst] at hs
      exact ih rest hs (by simpa using hle)
    | some kt :: rest =>
      rw [List.take_succ_cons] at hs
      match hu : kt.uri with
      | none =>
        simp only [scanFirst, hu] at hs
        simp only [get_host_uri_loop, hu]
        exact ih rest hs (by simpa using hle)
      | some u => simp [scanFirst, hu] at hs

theorem ghu_loop_idx : ∀ (ms : Nat) (keys : List (Option KeyTag)),
    scanFirst keys = none → keys.length < ms → get_host_uri_loop ms keys = .error .indexError := by
  intro ms
  induction ms with
  | zero => intro keys _ h; omega
  | succ ms ih =>
    intro keys hs hlt
    match keys with
    | [] => rfl
    | none :: rest =>
      simp only [scanFirst] at hs
      exact ih rest hs (by simpa using hlt)
    | some kt :: rest =>
      match hu : kt.uri with
      | none =>
        simp only [scanFirst, hu] at hs
        simp only [get_host_uri_loop, hu]
        exact ih rest hs (by simpa using hlt)
      | some u => simp [scanFirst, hu] at hs

/-- Counterexample to C2 as stated: on a playlist whose only segment carries a
key URI but whose `media_sequence` is `0`, base-location resolution returns
`None`, not the directory portion `"http://host/path"` of that key URI. -/
theorem c2_counterexample :
    get_host_uri c2Obj = .ok none ∧
    specBaseLocation c2Obj.segments = some "http://host/path" ∧
    .ok (specBaseLocation c2Obj.segments) ≠ get_host_uri c2Obj := by
  refine ⟨by decide, by decide, by decide⟩

/-- Claim C2 (amended): base-location resolution scans the parsed playlist's key
list (`m3u8_obj.keys`), not its segments, over the indices `0 ≤ i < media_sequence`:
it returns the directory portion of the first scanned key that has a URI,
skipping entries without one; when `media_sequence = 0` it returns `None` even if
segments carry key URIs; when no scanned key has a URI it returns `None` if
`media_sequence ≤ len(keys)` and raises `IndexError` otherwise. -/
theorem c2_amended : ∀ obj : M3U8,
    (obj.media_sequence = 0 → get_host_uri obj = .ok none) ∧
    (∀ d, scanFirst (obj.keys.take obj.media_sequence) = some d →
      get_host_uri obj = .ok (some d)) ∧
    (scanFirst (obj.keys.take obj.media_sequence) = none →
      obj.media_sequence ≤ obj.keys.length → get_host_uri obj = .ok none) ∧
    (scanFirst obj.keys = none → obj.keys.length < obj.media_sequence →
      get_host_uri obj = .error .indexError) := by
  intro obj
  refine ⟨?_, ?_, ?_, ?_⟩
  · intro h0
    rw [get_host_uri, h0]
    rfl
  · intro d hd
    exact ghu_loop_found obj.media_sequence obj.keys d hd
  · intro hs hle
    exact ghu_loop_none obj.media_sequence obj.keys hs hle
  · intro hs hlt
    exact ghu_loop_idx obj.media_sequence obj.keys hs hlt

/-- Witness for the amended C2: applied to a concrete playlist object with
`media_sequence = 1` and one key entry carrying a URI. -/
theorem c2_witness :
    get_host_uri
        { media_sequence := 1, segments := []
        , keys := [some { method := "AES-128", uri := some "http://x/y/k.key" }] }
      = .ok (some "http://x/y") :=
  (c2_amended _).2.1 "http://x/y" (by decide)

/-! ## Claim C6 -/

/-- Claim C6: `read_bytes` retrieves a location over the network precisely when
`is_valid` holds of it, i.e. when the parsed URL has both a non-empty scheme and
a non-empty network authority; otherwise the location is read from the local
filesystem. -/
theorem c6_fetch_dispatch : ∀ (net loc : String → Except PyErr Bytes) (p : String),
    (is_valid p = true → read_bytes net loc p = net p) ∧
    (is_valid p = false → read_bytes net loc p = loc p) ∧
    (is_valid p = true ↔ (urlparse_scheme p ≠ "" ∧ urlparse_netloc p ≠ "")) := by
  intro net loc p
  refine ⟨?_, ?_, ?_⟩
  · intro h
    simp [read_bytes, h]
  · intro h
    simp [read_bytes, h]
  · simp [is_valid, Bool.and_eq_true, bne_iff_ne]

/-- Witness for C6: the theorem applied at a URL location (network oracle used)
and at a local path (filesystem oracle used). -/
theorem c6_witness :
    read_bytes (fun _ => .ok [1]) (fun _ => .ok [2]) "http://host/a.ts" = .ok [1] ∧
    read_bytes (fun _ => .ok [1]) (fun _ => .ok [2]) "local/a.ts" = .ok [2] :=
  ⟨(c6_fetch_dispatch _ _ "http://host/a.ts").1 (by decide),
   (c6_fetch_dispatch _ _ "local/a.ts").2.1 (by decide)⟩

/-! ## Claim C9 -/

/-- Claim C9: `save_converted_mp3` raises `TypeError` exactly when the content is
`None`; for any actual byte string it performs a single write of exactly those
bytes to the output sink. -/
theorem c9_save_behavior :
    save_converted_mp3 none = .error (.typeError "Empty mp3 content to save.") ∧
    (∀ c : Bytes, save_converted_mp3 (some c) = .ok [c]) ∧
    (∀ content, (∃ msg, save_converted_mp3 content = .error (.typeError msg)) ↔ content = none) := by
  refine ⟨rfl, fun c => rfl, ?_⟩
  intro content
  match content with
  | none => simp [save_converted_mp3]
  | some c => simp [save_converted_mp3]

/-! ## Claim C10 -/

/-- Claim C10: on a playlist with no segments, provided the host location is
supplied or resolvable, the pipeline returns the empty byte string (and performs
no key fetch). -/
theorem c10_empty_playlist : ∀ (net loc : String → Except PyErr Bytes)
    (aesDec : Bytes → Bytes → Bytes → Bytes) (obj : M3U8) (arg : Option String) (h : String),
    obj.segments = [] → resolveHost obj arg = .ok (some h) →
    get_ts_from_m3u8 net loc aesDec obj arg = (.ok [], 0) := by
  intro net loc aesDec obj arg h hsegs hres
  simp [get_ts_from_m3u8, hres, runSegments, hsegs, get_ts_loop]

/-- Witness for C10: an empty playlist with a supplied host argument yields
exactly the empty byte string. -/
theorem c10_witness :
    get_ts_from_m3u8 (fun _ => .ok [1]) (fun _ => .ok [2]) (fun _ _ dta => dta)
      { media_sequence := 0, segments := [], keys := [] } (some "h") = (.ok [], 0) :=
  c10_empty_playlist _ _ _ _ (some "h") "h" rfl (by decide)

end M3u82mp3

namespace M3u82mp3

/-! ## Claim C4 -/

theorem loop_unencrypted : ∀ (net loc : String → Except PyErr Bytes)
    (aesDec : Bytes → Bytes → Bytes → Bytes) (hostUri : String) (ms : Nat)
    (segs : List Segment) (i : Nat) (st : LoopState) (d : String → Bytes),
    (∀ s ∈ segs, ∃ kt, s.key = some kt ∧ kt.method ≠ "AES-128") →
    (∀ s ∈ segs, read_bytes net loc (ospath_join hostUri s.uri) = .ok (d s.uri)) →
    get_ts_loop net loc aesDec hostUri ms segs i st =
      (.ok { ts := st.ts ++ concatAll (segs.map fun s => d s.uri), key := st.key }, 0) := by
  intro net loc aesDec hostUri ms segs
  induction segs with
  | nil =>
    intro i st d _ _
    simp [get_ts_loop, concatAll]
  | cons seg rest ih =>
    intro i st d hkeys hfetch
    obtain ⟨kt, hk, hm⟩ := hkeys seg (by simp)
    have hf := hfetch seg (by simp)
    have hstep : processSegment net loc aesDec hostUri ms i seg st =
        (.ok { ts := st.ts ++ d seg.uri, key := st.key }, 0) := by
      simp [processSegment, hk, hm, hf]
    simp only [get_ts_loop, hstep]
    rw [ih (i + 1) _ d (fun s hs => hkeys s (by simp [hs])) (fun s hs => hfetch s (by simp [hs]))]
    simp [concatAll, List.append_assoc]

/-- Counterexample to C4 as stated: a playlist whose only segment has no key tag
at all (so in particular no segment has encryption method AES-128) makes the
pipeline fail with `AttributeError` (`segment.key.method` on `None`) rather than
return the concatenation of the fetched segment bytes. -/
theorem c4_counterexample :
    (∀ s ∈ c4Obj.segments, s.key = none) ∧
    (get_ts_from_m3u8 (fun _ => .ok [7]) (fun _ => .ok [7]) (fun _ _ dta => dta)
        c4Obj (some "h")).1 = .error .attributeError ∧
    (get_ts_from_m3u8 (fun _ => .ok [7]) (fun _ => .ok [7]) (fun _ _ dta => dta)
        c4Obj (some "h")).1 ≠ .ok (concatAll (c4Obj.segments.map fun _ => [7])) := by
  refine ⟨by decide, by decide, by decide⟩

/-- Claim C4 (amended): for every playlist in which every segment carries a key
tag whose method is not `"AES-128"`, the pipeline output is exactly the raw
concatenation of the fetched segment bytes in playlist order — no mutation, no
separators, no re-ordering, no deduplication (a segment with no key tag at all
instead raises `AttributeError`, see the counterexample). -/
theorem c4_amended : ∀ (net loc : String → Except PyErr Bytes)
    (aesDec : Bytes → Bytes → Bytes → Bytes) (obj : M3U8) (arg : Option String)
    (hostUri : String) (d : String → Bytes),
    resolveHost obj arg = .ok (some hostUri) →
    (∀ s ∈ obj.segments, ∃ kt, s.key = some kt ∧ kt.method ≠ "AES-128") →
    (∀ s ∈ obj.segments, read_bytes net loc (ospath_join hostUri s.uri) = .ok (d s.uri)) →
    (get_ts_from_m3u8 net loc aesDec obj arg).1 =
      .ok (concatAll (obj.segments.map fun s => d s.uri)) := by
  intro net loc aesDec obj arg hostUri d hres hkeys hfetch
  simp only [get_ts_from_m3u8, hres]
  rw [runSegments, loop_unencrypted net loc aesDec hostUri obj.media_sequence obj.segments
    0 _ d hkeys hfetch]
  simp

/-- Witness for the amended C4: three unencrypted segments `b"AAA"`, `b"BBB"`,
`b"CCC"` concatenate to `b"AAABBBCCC"`. -/
theorem c4_witness :
    (get_ts_from_m3u8 (fun _ => .error (.ioError "network down")) c4WLoc (fun _ _ dta => dta)
        c4WObj (some "h")).1
      = .ok (concatAll (c4WObj.segments.map fun s => c4WD s.uri)) ∧
    concatAll (c4WObj.segments.map fun s => c4WD s.uri)
      = [65, 65, 65, 66, 66, 66, 67, 67, 67] := by
  constructor
  · exact c4_amended (fun _ => .error (.ioError "network down")) c4WLoc (fun _ _ dta => dta)
      c4WObj (some "h") "h" c4WD (by decide)
      (by intro s hs; fin_cases hs <;> exact ⟨_, rfl, by decide⟩)
      (by decide)
  · decide

/-! ## Claim C7 -/

/-- Counterexample to C7 as stated: a playlist whose every segment URI is an
absolute URL (no base location is needed to fetch it) still fails with the
"Host URL is not set." error when the base location is neither resolvable nor
supplied — the check does not look at the segment URIs at all. -/
theorem c7_counterexample :
    (∀ s ∈ c7Obj.segments, is_valid s.uri = true) ∧
    (get_ts_from_m3u8 (fun _ => .ok [0]) (fun _ => .ok [0]) (fun _ _ dta => dta)
        c7Obj none).1 = .error (.typeError "Host URL is not set.") :=
  ⟨by decide, by decide⟩

/-- Claim C7 (amended): the conversion fails with `TypeError("Host URL is not
set.")` exactly at the host-resolution step — whenever the host argument is
falsy and playlist resolution yields `None`, regardless of whether the segment
URIs are absolute; when resolution produces a host (or it is supplied), the
check passes and the run proceeds to the segment loop. -/
theorem c7_amended : ∀ (net loc : String → Except PyErr Bytes)
    (aesDec : Bytes → Bytes → Bytes → Bytes) (obj : M3U8) (arg : Option String),
    (resolveHost obj arg = .ok none →
      (get_ts_from_m3u8 net loc aesDec obj arg).1 = .error (.typeError "Host URL is not set.")) ∧
    (∀ e, resolveHost obj arg = .error e →
      (get_ts_from_m3u8 net loc aesDec obj arg).1 = .error e) ∧
    (∀ h, resolveHost obj arg = .ok (some h) →
      get_ts_from_m3u8 net loc aesDec obj arg = runSegments net loc aesDec obj h) := by
  intro net loc aesDec obj arg
  refine ⟨?_, ?_, ?_⟩
  · intro h
    simp [get_ts_from_m3u8, h]
  · intro e h
    simp [get_ts_from_m3u8, h]
  · intro h hres
    simp [get_ts_from_m3u8, hres]

/-- Witness for the amended C7: a playlist with no keys and no host argument
trips the host check. -/
theorem c7_witness :
    (get_ts_from_m3u8 (fun _ => .ok [1]) (fun _ => .ok [1]) (fun _ _ dta => dta)
        { media_sequence := 0, segments := [], keys := [] } none).1
      = .error (.typeError "Host URL is not set.") :=
  (c7_amended _ _ _ _ none).1 (by decide)

/-! ## Claim C8 -/

theorem loop_aes_key_unresolvable : ∀ (net loc : String → Except PyErr Bytes)
    (aesDec : Bytes → Bytes → Bytes → Bytes) (hostUri : String) (ms : Nat)
    (pre : List Segment) (seg : Segment) (rest : List Segment) (kt : KeyTag)
    (i : Nat) (st : LoopState),
    st.key = none →
    (∀ s ∈ pre, ∃ k, s.key = some k ∧ k.method ≠ "AES-128" ∧
      ∃ dta, read_bytes net loc (ospath_join hostUri s.uri) = .ok dta) →
    seg.key = some kt → kt.method = "AES-128" →
    (kt.uri = none ∨ ∃ u e, kt.uri = some u ∧ read_bytes net loc u = .error e) →
    ∃ e, (get_ts_loop net loc aesDec hostUri ms (pre ++ seg :: rest) i st).1 = .error e := by
  intro net loc aesDec hostUri ms pre
  induction pre with
  | nil =>
    intro seg rest kt i st hkey _ hk hm huri
    have hfalsy : pyFalsy st.key = true := by rw [hkey]; rfl
    rcases huri with hnone | ⟨u, e, hu, hread⟩
    · refine ⟨.typeError "expected string or bytes-like object", ?_⟩
      simp [get_ts_loop, processSegment, hk, hm, aesSegmentStep, fetchKeyIfNeeded, hfalsy, hnone]
    · refine ⟨e, ?_⟩
      simp [get_ts_loop, processSegment, hk, hm, aesSegmentStep, fetchKeyIfNeeded, hfalsy,
        hu, hread]
  | cons p pre' ih =>
    intro seg rest kt i st hkey hpre hk hm huri
    obtain ⟨k, hpk, hpm, dta, hpd⟩ := hpre p (by simp)
    have hstep : processSegment net loc aesDec hostUri ms i p st =
        (.ok { ts := st.ts ++ dta, key := st.key }, 0) := by
      simp [processSegment, hpk, hpm, hpd]
    rw [List.cons_append]
    simp only [get_ts_loop, hstep]
    obtain ⟨e, he⟩ := ih seg rest kt (i + 1) { ts := st.ts ++ dta, key := st.key }
      hkey (fun s hs => hpre s (by simp [hs])) hk hm huri
    rcases hl : get_ts_loop net loc aesDec hostUri ms (pre' ++ seg :: rest) (i + 1)
        { ts := st.ts ++ dta, key := st.key } with ⟨r, c⟩
    rw [hl] at he
    exact ⟨e, he⟩

/-- Claim C8: on a playlist whose first AES-128 segment (all earlier segments
being non-AES and fetchable) has an unresolvable key — its key URI is absent or
its retrieval fails — the whole conversion fails with an exception, `convert`
propagates that failure, and nothing at all is written to the output sink. -/
theorem c8_no_partial_output : ∀ (net loc : String → Except PyErr Bytes)
    (aesDec : Bytes → Bytes → Bytes → Bytes) (obj : M3U8) (hostUri : String)
    (pre : List Segment) (seg : Segment) (rest : List Segment) (kt : KeyTag),
    resolveHost obj none = .ok (some hostUri) →
    obj.segments = pre ++ seg :: rest →
    (∀ s ∈ pre, ∃ k, s.key = some k ∧ k.method ≠ "AES-128" ∧
      ∃ dta, read_bytes net loc (ospath_join hostUri s.uri) = .ok dta) →
    seg.key = some kt → kt.method = "AES-128" →
    (kt.uri = none ∨ ∃ u e, kt.uri = some u ∧ read_bytes net loc u = .error e) →
    ∃ e, (get_ts_from_m3u8 net loc aesDec obj none).1 = .error e ∧
      convert net loc aesDec obj = .error e ∧
      ∀ writes, convert net loc aesDec obj ≠ .ok writes := by
  intro net loc aesDec obj hostUri pre seg rest kt hres hsegs hpre hk hm huri
  obtain ⟨e, he⟩ := loop_aes_key_unresolvable net loc aesDec hostUri obj.media_sequence
    pre seg rest kt 0 { ts := [], key := none } rfl hpre hk hm huri
  have hget : (get_ts_from_m3u8 net loc aesDec obj none).1 = .error e := by
    simp only [get_ts_from_m3u8, hres, runSegments, hsegs]
    rcases hl : get_ts_loop net loc aesDec hostUri obj.media_sequence (pre ++ seg :: rest) 0
        { ts := [], key := none } with ⟨r, c⟩
    rw [hl] at he
    have hr : r = .error e := he
    subst hr
    rfl
  refine ⟨e, hget, ?_, ?_⟩
  · rw [convert, hget]
  · intro writes hw
    rw [convert, hget] at hw
    exact Except.noConfusion hw

/-- Witness for C8: a concrete playlist with one AES-128 segment whose key URI
yields an HTTP error; the conversion fails and writes nothing. -/
theorem c8_witness :
    ∃ e, (get_ts_from_m3u8 c8Net c8Loc (fun _ _ dta => dta) c8Obj none).1 = .error e ∧
      convert c8Net c8Loc (fun _ _ dta => dta) c8Obj = .error e ∧
      ∀ writes, convert c8Net c8Loc (fun _ _ dta => dta) c8Obj ≠ .ok writes :=
  c8_no_partial_output c8Net c8Loc (fun _ _ dta => dta) c8Obj "http://h/p" [] _ [] c8Key
    (by decide) rfl (fun s hs => absurd hs (List.not_mem_nil s)) rfl rfl
    (Or.inr ⟨"http://h/p/bad.key", .ioError "HTTP Error 404", rfl, by decide⟩)

end M3u82mp3

namespace M3u82mp3

/-! ## Claim C3 -/

theorem fetchKey_count_le (net loc : String → Except PyErr Bytes) (kt : KeyTag)
    (cached : Option Bytes) : (fetchKeyIfNeeded net loc kt cached).2 ≤ 1 := by
  by_cases hf : pyFalsy cached = true
  · rcases hku : kt.uri with _ | u <;> simp [fetchKeyIfNeeded, hf, hku]
  · simp [fetchKeyIfNeeded, hf]

theorem fetchKey_notfalsy (net loc : String → Except PyErr Bytes) (kt : KeyTag)
    (cached : Option Bytes) (h : pyFalsy cached = false) :
    fetchKeyIfNeeded net loc kt cached = (.ok (cached.getD []), 0) := by
  simp [fetchKeyIfNeeded, h]

theorem aesStep_count (net loc : String → Except PyErr Bytes)
    (aesDec : Bytes → Bytes → Bytes → Bytes) (hostUri : String) (mediaSeq i : Nat)
    (kt : KeyTag) (seg : Segment) (st : LoopState) :
    (aesSegmentStep net loc aesDec hostUri mediaSeq i kt seg st).2 =
      (fetchKeyIfNeeded net loc kt st.key).2 := by
  rcases hfk : fetchKeyIfNeeded net loc kt st.key with ⟨res, c⟩
  rcases res with e | keyBytes
  · simp [aesSegmentStep, hfk]
  · rcases hiv : deriveIV (i + mediaSeq) with e | iv
    · simp [aesSegmentStep, hfk, hiv]
    · rcases hnew : AES_new keyBytes iv with e | u
      · simp [aesSegmentStep, hfk, hiv, hnew]
      · rcases hrd : read_bytes net loc (ospath_join hostUri seg.uri) with e | dta
        · simp [aesSegmentStep, hfk, hiv, hnew, hrd]
        · rcases hdec : cbc_decrypt aesDec keyBytes iv dta with e | plain
          · simp [aesSegmentStep, hfk, hiv, hnew, hrd, hdec]
          · simp [aesSegmentStep, hfk, hiv, hnew, hrd, hdec]

theorem processSegment_count_le (net loc : String → Except PyErr Bytes)
    (aesDec : Bytes → Bytes → Bytes → Bytes) (hostUri : String) (ms i : Nat)
    (seg : Segment) (st : LoopState) :
    (processSegment net loc aesDec hostUri ms i seg st).2 ≤ 1 := by
  rcases hk : seg.key with _ | kt
  · simp [processSegment, hk]
  · simp only [processSegment, hk]
    by_cases hm : kt.method = "AES-128"
    · rw [if_pos hm, aesStep_count]
      exact fetchKey_count_le net loc kt st.key
    · rw [if_neg hm]
      rcases hrd : read_bytes net loc (ospath_join hostUri seg.uri) with e | dta <;>
        simp [hrd]

theorem processSegment_count_notfalsy (net loc : String → Except PyErr Bytes)
    (aesDec : Bytes → Bytes → Bytes → Bytes) (hostUri : String) (ms i : Nat)
    (seg : Segment) (st : LoopState) (h : pyFalsy st.key = false) :
    (processSegment net loc aesDec hostUri ms i seg st).2 = 0 := by
  rcases hk : seg.key with _ | kt
  · simp [processSegment, hk]
  · simp only [processSegment, hk]
    by_cases hm : kt.method = "AES-128"
    · rw [if_pos hm, aesStep_count, fetchKey_notfalsy net loc kt st.key h]
    · rw [if_neg hm]
      rcases hrd : read_bytes net loc (ospath_join hostUri seg.uri) with e | dta <;>
        simp [hrd]

theorem AES_new_ok_key_nonempty {key iv : Bytes} {u : Unit} (h : AES_new key iv = .ok u) :
    key.isEmpty = false := by
  by_cases hkl : (key.length = 16 ∨ key.length = 24 ∨ key.length = 32)
  · match key with
    | [] => simp at hkl
    | a :: t => rfl
  · rw [AES_new, if_neg hkl] at h
    exact Except.noConfusion h

theorem processSegment_ok_key (net loc : String → Except PyErr Bytes)
    (aesDec : Bytes → Bytes → Bytes → Bytes) (hostUri : String) (ms i : Nat)
    (seg : Segment) (st : LoopState) (st' : LoopState) (c : Nat)
    (h : processSegment net loc aesDec hostUri ms i seg st = (.ok st', c)) :
    (c = 0 ∧ st'.key = st.key) ∨ pyFalsy st'.key = false := by
  rcases hk : seg.key with _ | kt
  · simp only [processSegment, hk] at h
    simp at h
  · simp only [processSegment, hk] at h
    by_cases hm : kt.method = "AES-128"
    · rw [if_pos hm] at h
      rcases hfk : fetchKeyIfNeeded net loc kt st.key with ⟨res, cf⟩
      rcases res with e | keyBytes
      · simp only [aesSegmentStep, hfk] at h
        simp at h
      · rcases hiv : deriveIV (i + ms) with e | iv
        · simp only [aesSegmentStep, hfk, hiv] at h
          simp at h
        · rcases hnew : AES_new keyBytes iv with e | u
          · simp only [aesSegmentStep, hfk, hiv, hnew] at h
            simp at h
          · rcases hrd : read_bytes net loc (ospath_join hostUri seg.uri) with e | dta
            · simp only [aesSegmentStep, hfk, hiv, hnew, hrd] at h
              simp at h
            · rcases hdec : cbc_decrypt aesDec keyBytes iv dta with e | plain
              · simp only [aesSegmentStep, hfk, hiv, hnew, hrd, hdec] at h
                simp at h
              · simp only [aesSegmentStep, hfk, hiv, hnew, hrd, hdec, Prod.mk.injEq,
                  Except.ok.injEq] at h
                obtain ⟨hst, hc⟩ := h
                right
                rw [← hst]
                exact AES_new_ok_key_nonempty hnew
    · rw [if_neg hm] at h
      rcases hrd : read_bytes net loc (ospath_join hostUri seg.uri) with e | dta
      · rw [hrd] at h
        simp at h
      · rw [hrd] at h
        simp only [Prod.mk.injEq, Except.ok.injEq] at h
        obtain ⟨hst, hc⟩ := h
        left
        rw [← hst, ← hc]
        exact ⟨rfl, rfl⟩

theorem loop_count_le (net loc : String → Except PyErr Bytes)
    (aesDec : Bytes → Bytes → Bytes → Bytes) (hostUri : String) (ms : Nat) :
    ∀ (segs : List Segment) (i : Nat) (st : LoopState),
    (get_ts_loop net loc aesDec hostUri ms segs i st).2 ≤
      (if pyFalsy st.key = true then 1 else 0) := by
  intro segs
  induction segs with
  | nil =>
    intro i st
    simp [get_ts_loop]
  | cons seg rest ih =>
    intro i st
    rcases hp : processSegment net loc aesDec hostUri ms i seg st with ⟨res, c⟩
    have hcle : c ≤ 1 := by
      have hx := processSegment_count_le net loc aesDec hostUri ms i seg st
      rw [hp] at hx
      exact hx
    rcases res with e | st'
    · simp only [get_ts_loop, hp]
      by_cases hf : pyFalsy st.key = true
      · simp [hf]
        omega
      · have hfalse : pyFalsy st.key = false := by simpa using hf
        have hc0 : c = 0 := by
          have hx := processSegment_count_notfalsy net loc aesDec hostUri ms i seg st hfalse
          rw [hp] at hx
          exact hx
        simp [hf, hc0]
    · simp only [get_ts_loop, hp]
      rcases hl : get_ts_loop net loc aesDec hostUri ms rest (i + 1) st' with ⟨r, c'⟩
      have hrest := ih (i + 1) st'
      rw [hl] at hrest
      have hD := processSegment_ok_key net loc aesDec hostUri ms i seg st st' c hp
      by_cases hf : pyFalsy st.key = true
      · rcases hD with ⟨hc0, hkeq⟩ | hfal
        · have hsame : pyFalsy st'.key = true := by rw [hkeq]; exact hf
          simp [hsame] at hrest
          simp [hf]
          omega
        · simp [hfal] at hrest
          simp [hf]
          omega
      · have hfalse : pyFalsy st.key = false := by simpa using hf
        have hc0 : c = 0 := by
          have hx := processSegment_count_notfalsy net loc aesDec hostUri ms i seg st hfalse
          rw [hp] at hx
          exact hx
        rcases hD with ⟨_, hkeq⟩ | hfal
        · have hsame : pyFalsy st'.key = false := by rw [hkeq]; exact hfalse
          simp [hsame] at hrest
          simp [hf, hc0]
          omega
        · simp [hfal] at hrest
          simp [hf, hc0]
          omega

/-- Claim C3: in every conversion the decryption key is fetched at most once,
whatever the playlist, the host argument and the content source; and on the
concrete playlist of ten AES-128 segments sharing one key URI, the run succeeds
with exactly one key fetch. -/
theorem c3_key_fetch_at_most_once :
    (∀ (net loc : String → Except PyErr Bytes) (aesDec : Bytes → Bytes → Bytes → Bytes)
      (obj : M3U8) (arg : Option String), (get_ts_from_m3u8 net loc aesDec obj arg).2 ≤ 1) ∧
    (get_ts_from_m3u8 c3Net c3Loc c3Aes c3Obj none).2 = 1 ∧
    (get_ts_from_m3u8 c3Net c3Loc c3Aes c3Obj none).1 = .ok (List.replicate 160 0) := by
  refine ⟨?_, by decide, by decide⟩
  intro net loc aesDec obj arg
  rw [get_ts_from_m3u8]
  rcases hres : resolveHost obj arg with e | ho
  · simp
  · rcases ho with _ | h
    · simp
    · have hle := loop_count_le net loc aesDec h obj.media_sequence obj.segments 0
        { ts := [], key := none }
      rcases hl : get_ts_loop net loc aesDec h obj.media_sequence obj.segments 0
          { ts := [], key := none } with ⟨r, c⟩
      rw [hl] at hle
      have hc : c ≤ 1 := by simpa using hle
      rcases r with e | st <;> simpa [runSegments, hl] using hc

end M3u82mp3
